import Mathlib

/-!
Verification of the task-tracking application (dual-backend persistence shim
plus the list filter/sort engine).  The TypeScript sources are shallowly
embedded: pure helpers become Lean functions, the two storage backends become
explicit state-passing functions, thrown JavaScript exceptions become
`Except` values.  JavaScript strings are modelled by `String`, the dynamic
parameter arrays of the storage interface by lists of `Value`.
-/

namespace TodoSqlite

/-! ## JavaScript string primitives -/

/-- Boolean prefix test on character lists. -/
def isPrefixB : List Char → List Char → Bool
  | [], _ => true
  | _ :: _, [] => false
  | p :: ps, c :: cs => p == c && isPrefixB ps cs

/-- Boolean infix (substring) test on character lists. -/
def isInfixB (p : List Char) : List Char → Bool
  | [] => isPrefixB p []
  | c :: cs => isPrefixB p (c :: cs) || isInfixB p cs

/-- Model of the JavaScript `s.includes(pat)` substring test. -/
def strIncludes (s pat : String) : Bool :=
  isInfixB pat.toList s.toList

/-- Model of JavaScript `toLowerCase()` on one character, restricted to the
ASCII letters and the accented letters appearing in the application strings;
all other characters map to themselves. -/
def jsLowerChar (c : Char) : Char :=
  if 'A' ≤ c && c ≤ 'Z' then Char.ofNat (c.toNat + 32)
  else match c with
    | 'É' => 'é' | 'È' => 'è' | 'Ê' => 'ê' | 'Ë' => 'ë'
    | 'À' => 'à' | 'Â' => 'â' | 'Î' => 'î' | 'Ï' => 'ï'
    | 'Ô' => 'ô' | 'Û' => 'û' | 'Ù' => 'ù' | 'Ü' => 'ü'
    | 'Ç' => 'ç'
    | _ => c

/-- Model of `normalize('NFD')` followed by stripping the combining marks
U+0300..U+036F, restricted to precomposed latin letters used by the
application; a letter decomposes into its base letter plus a combining mark,
and the mark is then removed, so the net effect maps each accented letter to
its base letter. -/
def stripDiacritic (c : Char) : Char :=
  match c with
  | 'é' => 'e' | 'è' => 'e' | 'ê' => 'e' | 'ë' => 'e'
  | 'à' => 'a' | 'â' => 'a' | 'î' => 'i' | 'ï' => 'i'
  | 'ô' => 'o' | 'û' => 'u' | 'ù' => 'u' | 'ü' => 'u'
  | 'ç' => 'c'
  | _ => c

/-- Model of JavaScript `s.toLowerCase()`. -/
def jsLowerStr (s : String) : String :=
  String.mk (s.toList.map jsLowerChar)

/-- Model of `s.toLowerCase().normalize('NFD').replace(/[̀-ͯ]/g, '')`
(the query/status normalization of the filter). -/
def jsNormalize (s : String) : String :=
  String.mk (s.toList.map (fun c => stripDiacritic (jsLowerChar c)))

/-- JavaScript whitespace characters trimmed by `trim()` (restricted to the
ASCII ones). -/
def jsIsSpace (c : Char) : Bool :=
  c == ' ' || c == '\t' || c == '\n' || c == '\r'

/-- Model of JavaScript `s.trim()`. -/
def jsTrim (s : String) : String :=
  String.mk (((s.toList.dropWhile jsIsSpace).reverse.dropWhile jsIsSpace).reverse)

/-- Model of the regular-expression test `/^\d+$/.test(s)`: non-empty and all
decimal digits. -/
def isAllDigitsB (s : String) : Bool :=
  !s.toList.isEmpty && s.toList.all Char.isDigit

/-- Model of `String(n).padStart(2, '0')` for the day and month components. -/
def pad2 (n : Nat) : String :=
  if n < 10 then "0" ++ toString n else toString n

/-! ## Date parsing

The application stores deadlines as ISO `YYYY-MM-DD` strings (the date
prompt asks for that format).  `new Date(s)` is modelled for exactly that
format; every other string is treated as producing an Invalid Date (`NaN`
time value).  The time zone is taken to be UTC, so the local-time component
accessors agree with the parsed civil date. -/

/-- Value of a list of decimal digit characters. -/
def digitsToNat : List Char → Nat
  | [] => 0
  | c :: cs => (c.toNat - 48) * 10 ^ cs.length + digitsToNat cs

/-- Days in a month of the proleptic Gregorian calendar. -/
def daysInMonth (y m : Nat) : Nat :=
  if m = 2 then (if y % 4 = 0 && (y % 100 ≠ 0 || y % 400 = 0) then 29 else 28)
  else if m = 4 || m = 6 || m = 9 || m = 11 then 30
  else 31

/-- Days since the Unix epoch of a civil date (standard civil-from-days
inverse). -/
def daysFromCivil (y : Int) (m d : Nat) : Int :=
  let yAdj : Int := y - (if m ≤ 2 then 1 else 0)
  let era : Int := (if 0 ≤ yAdj then yAdj else yAdj - 399) / 400
  let yoe : Int := yAdj - era * 400
  let mp : Int := ((m : Int) + 9) % 12
  let doy : Int := (153 * mp + 2) / 5 + (d : Int) - 1
  let doe : Int := yoe * 365 + yoe / 4 - yoe / 100 + doy
  era * 146097 + doe - 719468

/-- Model of `new Date(s)` restricted to the ISO date form `YYYY-MM-DD`:
returns the civil date, or `none` for an Invalid Date. -/
def jsDateParse (s : String) : Option (Int × Nat × Nat) :=
  match s.toList with
  | [y1, y2, y3, y4, '-', m1, m2, '-', d1, d2] =>
    if y1.isDigit && y2.isDigit && y3.isDigit && y4.isDigit &&
       m1.isDigit && m2.isDigit && d1.isDigit && d2.isDigit then
      let y := digitsToNat [y1, y2, y3, y4]
      let m := digitsToNat [m1, m2]
      let d := digitsToNat [d1, d2]
      if 1 ≤ m && m ≤ 12 && 1 ≤ d && d ≤ daysInMonth y m then
        some ((y : Int), m, d)
      else none
    else none
  | _ => none

/-- Model of `new Date(s).getTime()`: milliseconds since the epoch, `none`
standing for `NaN`. -/
def jsGetTime (s : String) : Option Int :=
  (jsDateParse s).map (fun v => daysFromCivil v.1 v.2.1 v.2.2 * 86400000)

/-! ## The Task record (interface `Task` of the database module) -/

structure Task where
  id : Nat
  title : String
  description : String
  status : String
  deadline : Option String
deriving DecidableEq, Repr

/-! ## Dynamic values of the storage interface

The uniform interface passes a `params: any[]` array; at its call sites the
entries are strings, numbers (task ids), or `null`. -/

inductive Value where
  | vStr (s : String)
  | vNat (n : Nat)
  | vNull
deriving DecidableEq, Repr

/-- JavaScript falsiness of an interface value (`''`, `0` and `null` are
falsy). -/
def Value.isFalsy : Value → Bool
  | .vStr s => s == ""
  | .vNat n => n == 0
  | .vNull => true

/-- String stored for an interface value.  The call sites only ever store
string values into the string-typed fields; numbers are rendered by their
decimal representation and `null` by the empty string for totality. -/
def Value.toStr : Value → String
  | .vStr s => s
  | .vNat n => toString n
  | .vNull => ""

/-- Optional string stored for an interface value in the nullable `deadline`
column (`NULL` reads back as an absent deadline). -/
def Value.toOptStr : Value → Option String
  | .vStr s => some s
  | .vNat n => some (toString n)
  | .vNull => none

/-- JavaScript strict equality `v === id` between an interface value and a
numeric task id. -/
def Value.eqNat (v : Value) (id : Nat) : Bool :=
  match v with
  | .vNat n => n == id
  | _ => false

/-! ## Key-value backend (`webDatabase` of the database module)

The backend loads the whole task array, pattern-matches the SQL text, applies
the corresponding whole-collection mutation, and stores the array back.
`tasks.find(...)` followed by in-place mutation updates the first matching
element; `findIndex`/`splice` removes the first matching element. -/

/-- Update the first element satisfying `p` (model of `find` plus in-place
mutation of the found object). -/
def updFirst (p : α → Bool) (f : α → α) : List α → List α
  | [] => []
  | x :: xs => if p x then f x :: xs else x :: updFirst p f xs

/-- Remove the first element satisfying `p` (model of `findIndex` plus
`splice(index, 1)`). -/
def delFirst (p : α → Bool) : List α → List α
  | [] => []
  | x :: xs => if p x then xs else x :: delFirst p xs

/-- Result shape of the mutation executor. -/
structure RunResult where
  tasks : List Task
  rowsAffected : Nat
  insertId : Nat
deriving DecidableEq, Repr

namespace webDatabase

/-- Model of `webDatabase.runAsync`.  `now` is the value of `Date.now()` at
the call; the stored collection is passed in and the mutated collection is
returned in place of the `AsyncStorage` read-modify-write. -/
def runAsync (now : Nat) (tasks : List Task) (sql : String) (params : List Value) :
    RunResult :=
  let r : List Task × Nat :=
    if strIncludes sql "INSERT" then
      let newTask : Task :=
        { id := now
          title := (params.getD 0 Value.vNull).toStr
          description := (params.getD 1 Value.vNull).toStr
          status :=
            (if (params.getD 2 Value.vNull).isFalsy then Value.vStr "En cours"
             else params.getD 2 Value.vNull).toStr
          deadline :=
            some ((if (params.getD 3 Value.vNull).isFalsy then Value.vStr ""
                   else params.getD 3 Value.vNull).toStr) }
      (tasks ++ [newTask], newTask.id)
    else if strIncludes sql "UPDATE" then
      if strIncludes sql "SET status" then
        (updFirst (fun t => (params.getD 1 Value.vNull).eqNat t.id)
           (fun t => { t with status := (params.getD 0 Value.vNull).toStr }) tasks, 1)
      else if strIncludes sql "SET deadline" then
        (updFirst (fun t => (params.getD 1 Value.vNull).eqNat t.id)
           (fun t => { t with deadline := some (params.getD 0 Value.vNull).toStr }) tasks, 1)
      else (tasks, 1)
    else if strIncludes sql "DELETE" then
      (delFirst (fun t => (params.getD 0 Value.vNull).eqNat t.id) tasks, 1)
    else (tasks, 1)
  { tasks := r.1, rowsAffected := 1, insertId := r.2 }

end webDatabase

/-! ## Relational backend (`setupNativeDatabase` of the database module) -/

/-- Normalized mutation result returned to the caller. -/
structure MutResult where
  rowsAffected : Nat
  insertId : Nat
deriving DecidableEq, Repr

namespace nativeDatabase

/-- Result object of the embedded engine for a mutation (`SQLiteRunResult`):
the change count and the last inserted row id. -/
structure SQLiteRunResult where
  changes : Nat
  lastInsertRowId : Nat
deriving DecidableEq, Repr

/-- JavaScript property access `n?.length` on a number: numbers have no
`length` property, so the access yields `undefined`. -/
def numberLengthProp (_n : Nat) : Option Nat := none

/-- Model of the `runAsync` wrapper on a completed engine call: a successful
call is normalized to `{rowsAffected, insertId}` via
`result.changes?.length || 0` and `result.lastInsertRowId as number || 0`;
a failed call is logged and re-thrown. -/
def runAsync (engine : Except String SQLiteRunResult) : Except String MutResult :=
  match engine with
  | .ok result =>
      .ok { rowsAffected := (numberLengthProp result.changes).getD 0
            insertId := if result.lastInsertRowId = 0 then 0 else result.lastInsertRowId }
  | .error e => .error e

/-- Model of the `getAllAsync` wrapper: a failed engine call is logged and an
empty array is returned. -/
def getAllAsync (engine : Except String (List Task)) : List Task :=
  match engine with
  | .ok rows => rows
  | .error _ => []

end nativeDatabase

/-- Columns created by the `CREATE TABLE IF NOT EXISTS` statement. -/
def freshTableColumns : List String :=
  ["id", "title", "description", "status", "deadline"]

/-- Model of `getFirstAsync` on the query
`SELECT name FROM pragma_table_info('tasks') WHERE name = ?`: by the
embedded-engine API it returns the first row, or `null` when no row matches;
it does not throw merely because the result set is empty. -/
def pragmaGetFirst (cols : List String) (name : String) :
    Except String (Option String) :=
  .ok (if name ∈ cols then some name else none)

/-- Model of the schema-establishing prefix of `setupNativeDatabase`: create
the table if it does not exist, then try the pragma lookup for the deadline
column, running `ALTER TABLE tasks ADD COLUMN deadline TEXT` only when the
lookup throws.  The argument is the pre-existing table schema (`none` when
the database is fresh); the result is the column list after setup. -/
def setupNativeDatabase (existing : Option (List String)) : List String :=
  let cols :=
    match existing with
    | none => freshTableColumns
    | some cs => cs
  match pragmaGetFirst cols "deadline" with
  | .ok _ => cols
  | .error _ => cols ++ ["deadline"]

/-! ## Filter engine (`filteredTasks` of the TaskList component) -/

/-- Test `if (task.deadline)`: the deadline is truthy when present and
non-empty. -/
def deadlineTruthy (t : Task) : Bool :=
  match t.deadline with
  | some d => d ≠ ""
  | none => false

/-- Body of the inner `try` of the non-numeric date match.  The block reads
`formatDate(task.deadline)` — a `const` that is still in its temporal dead
zone when the filter callback first runs — and compares against the
undeclared identifier `query` (the declared variable is `normalizedQuery`),
so evaluating it raises a ReferenceError. -/
def formattedDateQueryMatch (_t : Task) : Except String Bool :=
  .error "ReferenceError: query is not defined"

/-- Date branch for non-numeric queries: guarded by `if (task.deadline)`, the
inner `try` runs and its exception is caught, returning `false`. -/
def nonNumericDateMatch (t : Task) : Bool :=
  if deadlineTruthy t then
    match formattedDateQueryMatch t with
    | .ok b => b
    | .error _ => false
  else false

/-- Date branch for all-digit queries: the deadline is parsed; an Invalid
Date returns `false`; otherwise the query is matched against the zero-padded
day, the zero-padded month, and the year. -/
def numericDateMatch (nq : String) (t : Task) : Bool :=
  match t.deadline with
  | some d =>
    if d ≠ "" then
      match jsDateParse d with
      | none => false
      | some (y, m, day) =>
          strIncludes (pad2 day) nq || strIncludes (pad2 m) nq ||
            strIncludes (toString y) nq
    else false
  | none => false

/-- Per-task predicate of the filter, applied to the normalized query. -/
def taskMatchesQuery (nq : String) (t : Task) : Bool :=
  if strIncludes (jsNormalize t.status) nq then true
  else if strIncludes (jsLowerStr t.title) nq ||
          strIncludes (jsLowerStr t.description) nq then true
  else if isAllDigitsB nq then numericDateMatch nq t
  else nonNumericDateMatch t

/-- Model of the `filteredTasks` memo: an empty (trimmed) query returns the
tasks unchanged, otherwise the tasks are filtered by `taskMatchesQuery`
against the lowercased, diacritic-stripped query. -/
def filteredTasks (searchQuery : String) (tasks : List Task) : List Task :=
  let trimmedQuery := jsTrim searchQuery
  if trimmedQuery = "" then tasks
  else tasks.filter (fun task => taskMatchesQuery (jsNormalize trimmedQuery) task)

/-! ## Sort engine (`sortedTasks`, deadline branch)

The comparator value `dateA - dateB` is an extended real: a finite time
value, `Infinity` for a falsy deadline, or `NaN` for an unparseable one.
`SortCompare` only uses the sign of the comparator and maps `NaN` to `+0`,
so the comparator is modelled by its sign directly.  `Array.prototype.sort`
is modelled by a stable insertion sort, which realizes the ECMAScript
guarantee (sorted and stable) whenever the comparator is consistent. -/

/-- Sort key of a task: `new Date(d).getTime()` for a truthy deadline
(`NaN` when unparseable), `Infinity` otherwise. -/
inductive DKey where
  | fin (n : Int)
  | inf
  | nan
deriving DecidableEq, Repr

/-- Deadline sort key of a task. -/
def dateVal (t : Task) : DKey :=
  match t.deadline with
  | none => .inf
  | some s =>
    if s = "" then .inf
    else match jsGetTime s with
      | some n => .fin n
      | none => .nan

/-- Sign of the comparator difference `a - b` on sort keys, with the
ECMAScript `SortCompare` convention that a `NaN` comparator result counts
as `+0`; `Infinity - Infinity` is `NaN`, hence also `0`. -/
def dkSub : DKey → DKey → Int
  | .nan, _ => 0
  | _, .nan => 0
  | .inf, .inf => 0
  | .inf, .fin _ => 1
  | .fin _, .inf => -1
  | .fin m, .fin n => if m < n then -1 else if n < m then 1 else 0

inductive SortOrder where
  | asc
  | desc
deriving DecidableEq, Repr

/-- Comparator of the deadline branch: `dateA - dateB` ascending,
`dateB - dateA` descending. -/
def deadlineCmp (ord : SortOrder) (a b : Task) : Int :=
  match ord with
  | .asc => dkSub (dateVal a) (dateVal b)
  | .desc => dkSub (dateVal b) (dateVal a)

/-- Insert into a sorted prefix: the new element goes before the first
element it compares strictly below, hence after every tie. -/
def insertC (c : α → α → Int) (x : α) : List α → List α
  | [] => [x]
  | y :: ys => if c x y < 0 then x :: y :: ys else y :: insertC c x ys

/-- Stable comparator sort (left-to-right insertion). -/
def sortC (c : α → α → Int) (l : List α) : List α :=
  l.foldl (fun acc x => insertC c x acc) []

/-- Model of the `sortedTasks` memo restricted to the deadline sort key. -/
def sortedTasks (ord : SortOrder) (l : List Task) : List Task :=
  sortC (deadlineCmp ord) l

/-! ## Sample data used by witnesses and counterexamples -/

/-- Sample task with no deadline. -/
def taskBuyMilk : Task := ⟨1, "Buy milk", "", "En cours", none⟩

/-- Sample in-progress task whose title contains the substring `termine`. -/
def taskTerminer : Task := ⟨2, "terminer le rapport", "", "En cours", none⟩

/-- Sample completed task. -/
def taskDone : Task := ⟨3, "Rapport", "relu", "Terminé", none⟩

/-- Sample task with a parseable deadline. -/
def taskJan : Task := ⟨4, "x", "y", "En cours", some "2024-01-05"⟩

/-! ## The four mutation statements issued by the application (App.tsx)

`addTask`, `deleteTask`, `updateTaskStatus` and `updateTaskDeadline` each
issue one fixed statement through the uniform `runAsync` interface. -/

def sqlInsertStr : String :=
  "INSERT INTO tasks (title, description, status, deadline) VALUES (?, ?, ?, ?)"

def sqlDeleteStr : String := "DELETE FROM tasks WHERE id = ?"

def sqlSetStatusStr : String := "UPDATE tasks SET status = ? WHERE id = ?"

def sqlSetDeadlineStr : String := "UPDATE tasks SET deadline = ? WHERE id = ?"

/-- Parameter list built by `addTask`: the status is defaulted to En cours
when falsy and the deadline is replaced by `null` when falsy, before the
statement is issued. -/
def addParams (title description status : String) (deadline : Option String) :
    List Value :=
  [Value.vStr title, Value.vStr description,
   Value.vStr (if status = "" then "En cours" else status),
   match deadline with
   | none => Value.vNull
   | some d => if d = "" then Value.vNull else Value.vStr d]

/-- Relational store state: the rows plus the AUTOINCREMENT counter (largest
id ever assigned plus one, starting at 1 on an empty table). -/
structure RelState where
  tasks : List Task
  nextId : Nat
deriving DecidableEq, Repr

/-- Modelled from the spec: semantics of the embedded relational engine on
the four fixed statements the application issues (the engine itself is the
external SQLite library, not repository code).  INSERT appends a row under
the autoincrement id; UPDATE rewrites every row matching the id; DELETE
removes every row matching the id. -/
def relMutate (st : RelState) (sql : String) (params : List Value) : RelState :=
  if sql = sqlInsertStr then
    { tasks := st.tasks ++
        [{ id := st.nextId
           title := (params.getD 0 Value.vNull).toStr
           description := (params.getD 1 Value.vNull).toStr
           status := (params.getD 2 Value.vNull).toStr
           deadline := (params.getD 3 Value.vNull).toOptStr }]
      nextId := st.nextId + 1 }
  else if sql = sqlDeleteStr then
    { st with tasks := st.tasks.filter (fun t => !(params.getD 0 Value.vNull).eqNat t.id) }
  else if sql = sqlSetStatusStr then
    { st with tasks := st.tasks.map (fun t =>
        if (params.getD 1 Value.vNull).eqNat t.id then
          { t with status := (params.getD 0 Value.vNull).toStr } else t) }
  else if sql = sqlSetDeadlineStr then
    { st with tasks := st.tasks.map (fun t =>
        if (params.getD 1 Value.vNull).eqNat t.id then
          { t with deadline := (params.getD 0 Value.vNull).toOptStr } else t) }
  else st

/-- Logical mutation issued through the uniform interface.  Delete and the
two updates name the target task by its creation index (the handle `h`): the
UI passes the id it read back from its own backend, which is `h + 1` on the
relational backend (AUTOINCREMENT from an empty table) and the `h`-th clock
value on the key-value backend. -/
inductive Op where
  | add (title description status : String) (deadline : Option String)
  | del (h : Nat)
  | setStatus (h : Nat) (s : String)
  | setDeadline (h : Nat) (d : String)

/-- One application-level mutation against the relational backend. -/
def relStep (st : RelState) : Op → RelState
  | .add t d s dl => relMutate st sqlInsertStr (addParams t d s dl)
  | .del h => relMutate st sqlDeleteStr [Value.vNat (h + 1)]
  | .setStatus h s => relMutate st sqlSetStatusStr [Value.vStr s, Value.vNat (h + 1)]
  | .setDeadline h d => relMutate st sqlSetDeadlineStr [Value.vStr d, Value.vNat (h + 1)]

/-- Relational run from the empty store. -/
def relRun (ops : List Op) : RelState :=
  ops.foldl relStep { tasks := [], nextId := 1 }

/-- One application-level mutation against the key-value backend.  The state
is the stored collection plus the number of adds performed so far; `clock h`
is the `Date.now()` value observed by the `h`-th add. -/
def kvStep (clock : Nat → Nat) (st : List Task × Nat) : Op → List Task × Nat
  | .add t d s dl =>
      ((webDatabase.runAsync (clock st.2) st.1 sqlInsertStr (addParams t d s dl)).tasks,
       st.2 + 1)
  | .del h =>
      ((webDatabase.runAsync (clock st.2) st.1 sqlDeleteStr [Value.vNat (clock h)]).tasks,
       st.2)
  | .setStatus h s =>
      ((webDatabase.runAsync (clock st.2) st.1 sqlSetStatusStr
          [Value.vStr s, Value.vNat (clock h)]).tasks, st.2)
  | .setDeadline h d =>
      ((webDatabase.runAsync (clock st.2) st.1 sqlSetDeadlineStr
          [Value.vStr d, Value.vNat (clock h)]).tasks, st.2)

/-- Key-value run from the empty (seeded) store. -/
def kvRun (clock : Nat → Nat) (ops : List Op) : List Task × Nat :=
  ops.foldl (kvStep clock) ([], 0)

/-- Number of adds after one more operation. -/
def addCount (a : Nat) : Op → Nat
  | .add _ _ _ _ => a + 1
  | _ => a

/-- Task with its id erased (the backend-specific fresh id is forgotten). -/
def eraseTaskId (t : Task) : String × String × String × Option String :=
  (t.title, t.description, t.status, t.deadline)

/-- Task key up to ids and up to the key-value representation of an absent
deadline as the empty string. -/
def taskKey (t : Task) : String × String × String × String :=
  (t.title, t.description, t.status, t.deadline.getD "")

/-- Rename a relational row to its key-value counterpart: the id becomes the
clock value of its creation index, an absent deadline becomes the empty
string. -/
def taskNorm (clock : Nat → Nat) (t : Task) : Task :=
  { id := clock (t.id - 1)
    title := t.title
    description := t.description
    status := t.status
    deadline := some (t.deadline.getD "") }

/-- Coupling invariant between the relational state and the key-value store
after `a` adds. -/
def RelKvInv (clock : Nat → Nat) (a : Nat) (R : RelState) (K : List Task) : Prop :=
  R.nextId = a + 1 ∧
  (∀ t ∈ R.tasks, 1 ≤ t.id ∧ t.id ≤ a) ∧
  List.Pairwise (fun s t => s.id < t.id) R.tasks ∧
  K = R.tasks.map (taskNorm clock)

/-- Operation list of the C1 counterexample: one add with no deadline. -/
def opsNoDeadline : List Op := [Op.add "Buy milk" "" "En cours" none]

/-! ## Helper lemmas about the filter -/

/-- Lemma: the non-numeric date branch always yields `false`, because its
inner try-block raises and the catch returns `false`. -/
theorem nonNumericDateMatch_false (t : Task) : nonNumericDateMatch t = false := by
  simp [nonNumericDateMatch, formattedDateQueryMatch]

/-! ## Helper lemmas about first-match update -/

theorem updFirst_of_not_found (p : α → Bool) (f : α → α) (l : List α)
    (h : ∀ x ∈ l, p x = false) : updFirst p f l = l := by
  induction l with
  | nil => rfl
  | cons x xs ih =>
    have hx := h x (List.mem_cons_self x xs)
    simp [updFirst, hx, ih (fun y hy => h y (List.mem_cons_of_mem x hy))]

theorem updFirst_eq_set (p : α → Bool) (f : α → α) :
    ∀ (l : List α) (j : Nat) (hj : j < l.length),
      p (l.get ⟨j, hj⟩) = true →
      (∀ (k : Nat) (hk : k < l.length), k < j → p (l.get ⟨k, hk⟩) = false) →
      updFirst p f l = l.set j (f (l.get ⟨j, hj⟩))
  | [], j, hj, _, _ => absurd hj (by simp)
  | x :: xs, 0, _, hpj, _ => by
      simp only [List.get] at hpj
      simp [updFirst, hpj, List.set]
  | x :: xs, j + 1, hj, hpj, hfirst => by
      have hx : p x = false := hfirst 0 (by simp) (by omega)
      have hj' : j < xs.length := by simpa using hj
      have hpj' : p (xs.get ⟨j, hj'⟩) = true := by simpa using hpj
      have hfirst' : ∀ (k : Nat) (hk : k < xs.length), k < j →
          p (xs.get ⟨k, hk⟩) = false := by
        intro k hk hkj
        simpa using hfirst (k + 1) (by simpa using hk) (by omega)
      simp [updFirst, hx, List.set, updFirst_eq_set p f xs j hj' hpj' hfirst']

/-! ## Claims -/

/-- C5: for every sqlLike string and parameter list passed to the key-value
mutation executor, the reported `rowsAffected` is `1`, whatever the stored
collection and whether or not any row matched. -/
theorem C5_rowsAffected_always_one (now : Nat) (tasks : List Task)
    (sql : String) (params : List Value) :
    (webDatabase.runAsync now tasks sql params).rowsAffected = 1 := rfl

/-- C7: on the relational backend a failed query execution returns the empty
sequence to the caller, and a failed mutate execution re-raises the error. -/
theorem C7_error_policy :
    (∀ e : String, nativeDatabase.getAllAsync (.error e) = []) ∧
    (∀ e : String, nativeDatabase.runAsync (.error e) = .error e) :=
  ⟨fun _ => rfl, fun _ => rfl⟩

/-- C9: a search query that trims to the empty string returns the task list
unchanged, in its original order. -/
theorem C9_empty_query (q : String) (tasks : List Task) (h : jsTrim q = "") :
    filteredTasks q tasks = tasks := by
  simp [filteredTasks, h]

/-- Witness for C9 at the whitespace-only query. -/
theorem C9_empty_query_witness :
    jsTrim "   " = "" ∧ filteredTasks "   " [taskBuyMilk, taskDone] = [taskBuyMilk, taskDone] :=
  ⟨by decide, C9_empty_query "   " [taskBuyMilk, taskDone] (by decide)⟩

/-- C2 (failing evaluation): opening against a legacy schema whose tasks
table lacks the deadline column leaves that schema unchanged — the ALTER
never runs because the pragma lookup returns an empty result instead of
throwing — so the deadline column is not added. -/
theorem C2_migration_skips_legacy_schema :
    setupNativeDatabase (some ["id", "title", "description", "status"]) =
      ["id", "title", "description", "status"] ∧
    "deadline" ∉ setupNativeDatabase (some ["id", "title", "description", "status"]) := by
  decide

/-- C4 (failing evaluation): a task with parseable deadline `2024-01-05` and
a non-numeric query `2024-01` occurring in the ISO rendering of that deadline
is nevertheless excluded: the non-numeric date branch raises a ReferenceError
that is caught as `false`. -/
theorem C4_date_branch_never_matches :
    filteredTasks "2024-01" [taskJan] = [] ∧
    strIncludes "2024-01-05" "2024-01" = true ∧
    (jsGetTime "2024-01-05").isSome = true := by
  decide

/-- C6 (failing evaluation): on a successful mutation whose engine result
reports change count `1` and last inserted row id `7`, the wrapper returns
`rowsAffected = 0` (it reads the `length` property of the numeric change
count), not the change count. -/
theorem C6_rowsAffected_not_change_count :
    nativeDatabase.runAsync (.ok ⟨1, 7⟩) = .ok ⟨0, 7⟩ ∧
    (1 : Nat) ≠ 0 :=
  ⟨rfl, by decide⟩

/-- C8 (counterexample): the query terminé also returns a task whose status
is not the done value, because titles and descriptions are matched too. -/
theorem C8_counterexample :
    filteredTasks "terminé" [taskTerminer] = [taskTerminer] ∧
    taskTerminer.status ≠ "Terminé" := by
  decide

/-- C8 (amended): over tasks whose status is one of the two legal values,
filtering with terminé returns exactly the tasks whose status is Terminé
(matched case- and accent-insensitively) or whose lowercased title or
description contains the substring termine. -/
theorem C8_filter_termine (l : List Task)
    (h : ∀ t ∈ l, t.status = "En cours" ∨ t.status = "Terminé") :
    filteredTasks "terminé" l =
      l.filter (fun t =>
        t.status == "Terminé" ||
        strIncludes (jsLowerStr t.title) "termine" ||
        strIncludes (jsLowerStr t.description) "termine") := by
  have hq : jsNormalize (jsTrim "terminé") = "termine" := by decide
  simp only [filteredTasks, hq]
  rw [if_neg (by decide : ¬ jsTrim "terminé" = "")]
  apply List.filter_congr
  intro t ht
  rcases h t ht with hs | hs
  · simp only [taskMatchesQuery, hs]
    rw [show strIncludes (jsNormalize "En cours") "termine" = false from by decide]
    rw [show isAllDigitsB "termine" = false from by decide]
    simp [nonNumericDateMatch_false]
  · simp only [taskMatchesQuery, hs]
    rw [show strIncludes (jsNormalize "Terminé") "termine" = true from by decide]
    simp

/-- Witness for C8 (amended) on a mixed list. -/
theorem C8_filter_termine_witness :
    (∀ t ∈ [taskBuyMilk, taskTerminer, taskDone], t.status = "En cours" ∨ t.status = "Terminé") ∧
    filteredTasks "terminé" [taskBuyMilk, taskTerminer, taskDone] =
      List.filter (fun t =>
        t.status == "Terminé" ||
        strIncludes (jsLowerStr t.title) "termine" ||
        strIncludes (jsLowerStr t.description) "termine")
        [taskBuyMilk, taskTerminer, taskDone] :=
  ⟨by decide, C8_filter_termine [taskBuyMilk, taskTerminer, taskDone] (by decide)⟩

/-- C10: a key-value mutation recognized as a status update (respectively a
deadline update) whose id parameter matches no stored task leaves the stored
collection unchanged; when some task matches, the collection is the original
with the first matching position replaced by that task with only its status
(respectively deadline) field changed — every other field and every other
task is untouched. -/
theorem C10_kv_update_frame (sql : String) (v : String) (i now : Nat)
    (tasks : List Task)
    (hIns : strIncludes sql "INSERT" = false)
    (hUpd : strIncludes sql "UPDATE" = true) :
    (strIncludes sql "SET status" = true →
      ((∀ t ∈ tasks, t.id ≠ i) →
        (webDatabase.runAsync now tasks sql [Value.vStr v, Value.vNat i]).tasks = tasks) ∧
      (∀ (j : Nat) (hj : j < tasks.length),
        (tasks.get ⟨j, hj⟩).id = i →
        (∀ (k : Nat) (hk : k < tasks.length), k < j → (tasks.get ⟨k, hk⟩).id ≠ i) →
        (webDatabase.runAsync now tasks sql [Value.vStr v, Value.vNat i]).tasks =
          tasks.set j { tasks.get ⟨j, hj⟩ with status := v })) ∧
    (strIncludes sql "SET status" = false → strIncludes sql "SET deadline" = true →
      ((∀ t ∈ tasks, t.id ≠ i) →
        (webDatabase.runAsync now tasks sql [Value.vStr v, Value.vNat i]).tasks = tasks) ∧
      (∀ (j : Nat) (hj : j < tasks.length),
        (tasks.get ⟨j, hj⟩).id = i →
        (∀ (k : Nat) (hk : k < tasks.length), k < j → (tasks.get ⟨k, hk⟩).id ≠ i) →
        (webDatabase.runAsync now tasks sql [Value.vStr v, Value.vNat i]).tasks =
          tasks.set j { tasks.get ⟨j, hj⟩ with deadline := some v })) := by
  constructor
  · intro hSt
    have hred : (webDatabase.runAsync now tasks sql [Value.vStr v, Value.vNat i]).tasks =
        updFirst (fun t => Value.eqNat (Value.vNat i) t.id)
          (fun t => { t with status := v }) tasks := by
      simp [webDatabase.runAsync, hIns, hUpd, hSt, Value.toStr]
    constructor
    · intro hnone
      rw [hred]
      apply updFirst_of_not_found
      intro t ht
      simp only [Value.eqNat, beq_eq_false_iff_ne, ne_eq]
      exact fun he => (hnone t ht) he.symm
    · intro j hj hjid hfirst
      rw [hred, updFirst_eq_set _ _ tasks j hj (by simp only [Value.eqNat, beq_iff_eq]; exact hjid.symm)
        (fun k hk hkj => by
          simp only [Value.eqNat, beq_eq_false_iff_ne, ne_eq]
          exact fun he => (hfirst k hk hkj) he.symm)]
  · intro hSt hDl
    have hred : (webDatabase.runAsync now tasks sql [Value.vStr v, Value.vNat i]).tasks =
        updFirst (fun t => Value.eqNat (Value.vNat i) t.id)
          (fun t => { t with deadline := some v }) tasks := by
      simp [webDatabase.runAsync, hIns, hUpd, hSt, hDl, Value.toStr]
    constructor
    · intro hnone
      rw [hred]
      apply updFirst_of_not_found
      intro t ht
      simp only [Value.eqNat, beq_eq_false_iff_ne, ne_eq]
      exact fun he => (hnone t ht) he.symm
    · intro j hj hjid hfirst
      rw [hred, updFirst_eq_set _ _ tasks j hj (by simp only [Value.eqNat, beq_iff_eq]; exact hjid.symm)
        (fun k hk hkj => by
          simp only [Value.eqNat, beq_eq_false_iff_ne, ne_eq]
          exact fun he => (hfirst k hk hkj) he.symm)]

/-! ## Generic lemmas about the stable comparator sort

The comparator of the deadline sort is consistent only on tasks whose key is
not `NaN`; the lemmas therefore take a predicate `P` singling out the
well-behaved elements and require consistency only on them. -/

theorem insertC_perm (c : α → α → Int) (x : α) (l : List α) :
    List.Perm (insertC c x l) (x :: l) := by
  induction l with
  | nil => simp [insertC]
  | cons y ys ih =>
    simp only [insertC]
    split
    · exact List.Perm.refl _
    · exact (List.Perm.cons y ih).trans (List.Perm.swap x y ys)

theorem mem_insertC (c : α → α → Int) {x a : α} {l : List α} :
    a ∈ insertC c x l ↔ a ∈ x :: l :=
  (insertC_perm c x l).mem_iff

theorem foldl_insertC_perm (c : α → α → Int) :
    ∀ (l acc : List α),
      List.Perm (l.foldl (fun a x => insertC c x a) acc) (acc ++ l)
  | [], acc => by simp
  | x :: xs, acc => by
      simp only [List.foldl_cons]
      exact (foldl_insertC_perm c xs (insertC c x acc)).trans
        (((insertC_perm c x acc).append_right xs).trans List.perm_middle.symm)

theorem sortC_perm (c : α → α → Int) (l : List α) : List.Perm (sortC c l) l := by
  simpa using foldl_insertC_perm c l []

theorem insertC_sorted (c : α → α → Int) (P : α → Prop)
    (hA : ∀ a b, c a b = -(c b a))
    (hTs : ∀ a b d, P a → P b → P d → c a b < 0 → c b d ≤ 0 → c a d < 0)
    (x : α) (l : List α) (hx : P x) (hl : ∀ y ∈ l, P y)
    (hs : List.Pairwise (fun a b => c a b ≤ 0) l) :
    List.Pairwise (fun a b => c a b ≤ 0) (insertC c x l) := by
  induction l with
  | nil => simp [insertC]
  | cons y ys ih =>
    rcases List.pairwise_cons.mp hs with ⟨hy, hys⟩
    simp only [insertC]
    split
    case isTrue hcxy =>
      refine List.pairwise_cons.mpr ⟨?_, hs⟩
      intro z hz
      rcases List.mem_cons.mp hz with rfl | hz'
      · exact le_of_lt hcxy
      · exact le_of_lt
          (hTs x y z hx (hl y (by simp)) (hl z (by simp [hz'])) hcxy (hy z hz'))
    case isFalse hcxy =>
      refine List.pairwise_cons.mpr
        ⟨?_, ih (fun t ht => hl t (by simp [ht])) hys⟩
      intro z hz
      rcases List.mem_cons.mp ((mem_insertC c).mp hz) with rfl | hz'
      · have := hA y z
        omega
      · exact hy z hz'

theorem foldl_insertC_sorted (c : α → α → Int) (P : α → Prop)
    (hA : ∀ a b, c a b = -(c b a))
    (hTs : ∀ a b d, P a → P b → P d → c a b < 0 → c b d ≤ 0 → c a d < 0) :
    ∀ (l acc : List α), (∀ y ∈ acc, P y) → (∀ y ∈ l, P y) →
      List.Pairwise (fun a b => c a b ≤ 0) acc →
      List.Pairwise (fun a b => c a b ≤ 0)
        (l.foldl (fun a x => insertC c x a) acc)
  | [], _, _, _, hs => hs
  | x :: xs, acc, hacc, hl, hs => by
      simp only [List.foldl_cons]
      refine foldl_insertC_sorted c P hA hTs xs (insertC c x acc) ?_
        (fun y hy => hl y (by simp [hy])) ?_
      · intro t ht
        rcases List.mem_cons.mp ((mem_insertC c).mp ht) with h | h
        · rw [h]; exact hl x (by simp)
        · exact hacc t h
      · exact insertC_sorted c P hA hTs x acc (hl x (by simp)) hacc hs

theorem sortC_sorted (c : α → α → Int) (P : α → Prop)
    (hA : ∀ a b, c a b = -(c b a))
    (hTs : ∀ a b d, P a → P b → P d → c a b < 0 → c b d ≤ 0 → c a d < 0)
    (l : List α) (hl : ∀ y ∈ l, P y) :
    List.Pairwise (fun a b => c a b ≤ 0) (sortC c l) :=
  foldl_insertC_sorted c P hA hTs l [] (by simp) hl (by simp)

theorem filter_insertC_neg (c : α → α → Int) (q : α → Bool) (x : α)
    (l : List α) (hqx : q x = false) :
    (insertC c x l).filter q = l.filter q := by
  induction l with
  | nil => simp [insertC, hqx]
  | cons y ys ih =>
    simp only [insertC]
    split
    · simp [List.filter_cons, hqx]
    · cases hqy : q y <;> simp [List.filter_cons, hqy, ih]

theorem filter_insertC_pos (c : α → α → Int) (P : α → Prop) (q : α → Bool)
    (hTs : ∀ a b d, P a → P b → P d → c a b < 0 → c b d ≤ 0 → c a d < 0)
    (hq0 : ∀ a b, P a → P b → q a = true → q b = true → c a b = 0)
    (x : α) (l : List α) (hx : P x) (hl : ∀ y ∈ l, P y)
    (hs : List.Pairwise (fun a b => c a b ≤ 0) l) (hqx : q x = true) :
    (insertC c x l).filter q = l.filter q ++ [x] := by
  induction l with
  | nil => simp [insertC, hqx]
  | cons y ys ih =>
    rcases List.pairwise_cons.mp hs with ⟨hy, hys⟩
    simp only [insertC]
    split
    case isTrue hcxy =>
      have hempty : List.filter q (y :: ys) = [] := by
        rw [List.filter_eq_nil_iff]
        intro z hz hqz
        have hPz : P z := hl z hz
        have h0 : c x z = 0 := hq0 x z hx hPz hqx hqz
        rcases List.mem_cons.mp hz with rfl | hz'
        · omega
        · have : c x z < 0 :=
            hTs x y z hx (hl y (by simp)) hPz hcxy (hy z hz')
          omega
      simp [List.filter_cons, hqx, hempty]
    case isFalse hcxy =>
      have ihr := ih (fun t ht => hl t (by simp [ht])) hys
      cases hqy : q y <;> simp [List.filter_cons, hqy, ihr]

theorem foldl_insertC_filter (c : α → α → Int) (P : α → Prop) (q : α → Bool)
    (hA : ∀ a b, c a b = -(c b a))
    (hTs : ∀ a b d, P a → P b → P d → c a b < 0 → c b d ≤ 0 → c a d < 0)
    (hq0 : ∀ a b, P a → P b → q a = true → q b = true → c a b = 0) :
    ∀ (l acc : List α), (∀ y ∈ acc, P y) → (∀ y ∈ l, P y) →
      List.Pairwise (fun a b => c a b ≤ 0) acc →
      (l.foldl (fun a x => insertC c x a) acc).filter q =
        acc.filter q ++ l.filter q
  | [], acc, _, _, _ => by simp
  | x :: xs, acc, hacc, hl, hs => by
      have haccx : ∀ y ∈ insertC c x acc, P y := by
        intro t ht
        rcases List.mem_cons.mp ((mem_insertC c).mp ht) with h | h
        · rw [h]; exact hl x (by simp)
        · exact hacc t h
      have hsx : List.Pairwise (fun a b => c a b ≤ 0) (insertC c x acc) :=
        insertC_sorted c P hA hTs x acc (hl x (by simp)) hacc hs
      simp only [List.foldl_cons]
      rw [foldl_insertC_filter c P q hA hTs hq0 xs (insertC c x acc) haccx
        (fun y hy => hl y (by simp [hy])) hsx]
      cases hqx : q x
      · rw [filter_insertC_neg c q x acc hqx]
        simp [List.filter_cons, hqx]
      · rw [filter_insertC_pos c P q hTs hq0 x acc (hl x (by simp)) hacc hs hqx]
        simp [List.filter_cons, hqx]

theorem sortC_filter_stable (c : α → α → Int) (P : α → Prop) (q : α → Bool)
    (hA : ∀ a b, c a b = -(c b a))
    (hTs : ∀ a b d, P a → P b → P d → c a b < 0 → c b d ≤ 0 → c a d < 0)
    (hq0 : ∀ a b, P a → P b → q a = true → q b = true → c a b = 0)
    (l : List α) (hl : ∀ y ∈ l, P y) :
    (sortC c l).filter q = l.filter q := by
  simpa using foldl_insertC_filter c P q hA hTs hq0 l [] (by simp) hl (by simp)

/-! ## Sort-key arithmetic -/

theorem dkSub_antisym (a b : DKey) : dkSub a b = -(dkSub b a) := by
  cases a <;> cases b <;> simp only [dkSub] <;>
    first
      | omega
      | (split_ifs <;> omega)

theorem dkSub_lt_le_trans (a b d : DKey) (ha : a ≠ DKey.nan) (hb : b ≠ DKey.nan)
    (hd : d ≠ DKey.nan) (h1 : dkSub a b < 0) (h2 : dkSub b d ≤ 0) :
    dkSub a d < 0 := by
  cases a <;> cases b <;> cases d <;>
    simp only [dkSub] at h1 h2 ⊢ <;>
    first
      | omega
      | (exact absurd rfl ha)
      | (exact absurd rfl hb)
      | (exact absurd rfl hd)
      | (split_ifs at h1 h2 ⊢ <;> omega)

theorem dkSub_le_lt_trans (a b d : DKey) (ha : a ≠ DKey.nan) (hb : b ≠ DKey.nan)
    (hd : d ≠ DKey.nan) (h1 : dkSub a b ≤ 0) (h2 : dkSub b d < 0) :
    dkSub a d < 0 := by
  cases a <;> cases b <;> cases d <;>
    simp only [dkSub] at h1 h2 ⊢ <;>
    first
      | omega
      | (exact absurd rfl ha)
      | (exact absurd rfl hb)
      | (exact absurd rfl hd)
      | (split_ifs at h1 h2 ⊢ <;> omega)

theorem dkSub_self (a : DKey) (ha : a ≠ DKey.nan) : dkSub a a = 0 := by
  cases a <;> simp only [dkSub] <;>
    first
      | rfl
      | (exact absurd rfl ha)
      | (split_ifs <;> omega)

theorem deadlineCmp_antisym (ord : SortOrder) (a b : Task) :
    deadlineCmp ord a b = -(deadlineCmp ord b a) := by
  cases ord <;> simp only [deadlineCmp] <;> exact dkSub_antisym _ _

theorem deadlineCmp_trans_strict (ord : SortOrder) (a b d : Task)
    (ha : dateVal a ≠ DKey.nan) (hb : dateVal b ≠ DKey.nan)
    (hd : dateVal d ≠ DKey.nan)
    (h1 : deadlineCmp ord a b < 0) (h2 : deadlineCmp ord b d ≤ 0) :
    deadlineCmp ord a d < 0 := by
  cases ord
  · exact dkSub_lt_le_trans _ _ _ ha hb hd h1 h2
  · exact dkSub_le_lt_trans _ _ _ hd hb ha h2 h1

theorem deadlineCmp_zero_of_same_key (ord : SortOrder) (k : DKey) (a b : Task)
    (ha : dateVal a ≠ DKey.nan) (hka : dateVal a = k) (hkb : dateVal b = k) :
    deadlineCmp ord a b = 0 := by
  cases ord <;> simp only [deadlineCmp, hka, hkb] <;>
    exact dkSub_self k (hka ▸ ha)

/-- C3 (counterexample): in descending order the deadline sort places the
task with an absent deadline before the task with a parseable deadline, not
after it. -/
theorem C3_counterexample :
    sortedTasks SortOrder.desc [taskJan, taskBuyMilk] = [taskBuyMilk, taskJan] ∧
    taskBuyMilk.deadline = none ∧
    (∃ n : Int, dateVal taskJan = DKey.fin n) := by
  exact ⟨by decide, rfl, ⟨daysFromCivil 2024 1 5 * 86400000, by decide⟩⟩

/-- C3 (amended): over task lists in which every deadline is absent or
parseable (no `NaN` sort key, for which the comparator is inconsistent and
the engine order implementation-defined), ascending deadline sort places
every task with an absent deadline after all tasks with a parseable
deadline, descending sort places them before all such tasks, and both orders
preserve the relative input order of tasks with equal sort keys. -/
theorem C3_deadline_sort (l : List Task)
    (hn : ∀ t ∈ l, dateVal t ≠ DKey.nan) :
    List.Pairwise
      (fun a b => ¬(dateVal a = DKey.inf ∧ ∃ n, dateVal b = DKey.fin n))
      (sortedTasks SortOrder.asc l) ∧
    List.Pairwise
      (fun a b => ¬((∃ n, dateVal a = DKey.fin n) ∧ dateVal b = DKey.inf))
      (sortedTasks SortOrder.desc l) ∧
    (∀ k : DKey,
      (sortedTasks SortOrder.asc l).filter (fun t => decide (dateVal t = k)) =
        l.filter (fun t => decide (dateVal t = k)) ∧
      (sortedTasks SortOrder.desc l).filter (fun t => decide (dateVal t = k)) =
        l.filter (fun t => decide (dateVal t = k))) := by
  have hs_asc :=
    sortC_sorted (deadlineCmp SortOrder.asc) (fun t => dateVal t ≠ DKey.nan)
      (deadlineCmp_antisym SortOrder.asc)
      (deadlineCmp_trans_strict SortOrder.asc) l hn
  have hs_desc :=
    sortC_sorted (deadlineCmp SortOrder.desc) (fun t => dateVal t ≠ DKey.nan)
      (deadlineCmp_antisym SortOrder.desc)
      (deadlineCmp_trans_strict SortOrder.desc) l hn
  refine ⟨?_, ?_, ?_⟩
  · refine hs_asc.imp ?_
    intro a b hab
    rintro ⟨hai, n, hbn⟩
    simp only [deadlineCmp, hai, hbn, dkSub] at hab
    omega
  · refine hs_desc.imp ?_
    intro a b hab
    rintro ⟨⟨n, han⟩, hbi⟩
    simp only [deadlineCmp, han, hbi, dkSub] at hab
    omega
  · intro k
    constructor
    · exact sortC_filter_stable (deadlineCmp SortOrder.asc)
        (fun t => dateVal t ≠ DKey.nan) (fun t => decide (dateVal t = k))
        (deadlineCmp_antisym SortOrder.asc)
        (deadlineCmp_trans_strict SortOrder.asc)
        (fun a b ha hb hqa hqb =>
          deadlineCmp_zero_of_same_key SortOrder.asc k a b ha
            (of_decide_eq_true hqa) (of_decide_eq_true hqb))
        l hn
    · exact sortC_filter_stable (deadlineCmp SortOrder.desc)
        (fun t => dateVal t ≠ DKey.nan) (fun t => decide (dateVal t = k))
        (deadlineCmp_antisym SortOrder.desc)
        (deadlineCmp_trans_strict SortOrder.desc)
        (fun a b ha hb hqa hqb =>
          deadlineCmp_zero_of_same_key SortOrder.desc k a b ha
            (of_decide_eq_true hqa) (of_decide_eq_true hqb))
        l hn

/-- Witness for C3 (amended) on a concrete list mixing parseable and absent
deadlines. -/
theorem C3_deadline_sort_witness :
    (∀ t ∈ [taskJan, taskBuyMilk, taskDone], dateVal t ≠ DKey.nan) ∧
    (List.Pairwise
      (fun a b => ¬(dateVal a = DKey.inf ∧ ∃ n, dateVal b = DKey.fin n))
      (sortedTasks SortOrder.asc [taskJan, taskBuyMilk, taskDone]) ∧
    List.Pairwise
      (fun a b => ¬((∃ n, dateVal a = DKey.fin n) ∧ dateVal b = DKey.inf))
      (sortedTasks SortOrder.desc [taskJan, taskBuyMilk, taskDone]) ∧
    (∀ k : DKey,
      (sortedTasks SortOrder.asc [taskJan, taskBuyMilk, taskDone]).filter
          (fun t => decide (dateVal t = k)) =
        [taskJan, taskBuyMilk, taskDone].filter (fun t => decide (dateVal t = k)) ∧
      (sortedTasks SortOrder.desc [taskJan, taskBuyMilk, taskDone]).filter
          (fun t => decide (dateVal t = k)) =
        [taskJan, taskBuyMilk, taskDone].filter (fun t => decide (dateVal t = k)))) :=
  ⟨by decide, C3_deadline_sort [taskJan, taskBuyMilk, taskDone] (by decide)⟩

/-- Witness for C10: a status update matching the single stored task. -/
theorem C10_kv_update_frame_witness :
    (webDatabase.runAsync 0 [taskBuyMilk] "UPDATE tasks SET status = ? WHERE id = ?"
        [Value.vStr "Terminé", Value.vNat 1]).tasks =
      [taskBuyMilk].set 0 { [taskBuyMilk].get ⟨0, by decide⟩ with status := "Terminé" } :=
  ((C10_kv_update_frame "UPDATE tasks SET status = ? WHERE id = ?" "Terminé" 1 0
      [taskBuyMilk] (by decide) (by decide)).1 (by decide)).2
    0 (by decide) (by decide) (fun k hk hkj => absurd hkj (by omega))

/-! ## Further first-match lemmas, used by the backend-equivalence proof -/

theorem delFirst_map (p : β → Bool) (g : α → β) (l : List α) :
    delFirst p (l.map g) = (delFirst (fun x => p (g x)) l).map g := by
  induction l with
  | nil => rfl
  | cons x xs ih =>
    simp only [List.map_cons, delFirst]
    rcases Bool.eq_false_or_eq_true (p (g x)) with h | h <;> simp [h, ih]

theorem delFirst_congr (p q : α → Bool) (l : List α) (h : ∀ x ∈ l, p x = q x) :
    delFirst p l = delFirst q l := by
  induction l with
  | nil => rfl
  | cons x xs ih =>
    simp only [delFirst, h x (by simp)]
    cases hq : q x <;>
      simp [hq, ih (fun y hy => h y (by simp [hy]))]

theorem updFirst_map (p : β → Bool) (g : α → β) (f : β → β) (f2 : α → α)
    (hcomm : ∀ x, f (g x) = g (f2 x)) (l : List α) :
    updFirst p f (l.map g) = (updFirst (fun x => p (g x)) f2 l).map g := by
  induction l with
  | nil => rfl
  | cons x xs ih =>
    simp only [List.map_cons, updFirst]
    rcases Bool.eq_false_or_eq_true (p (g x)) with h | h <;> simp [h, ih, hcomm]

theorem updFirst_congr (p q : α → Bool) (f : α → α) (l : List α)
    (h : ∀ x ∈ l, p x = q x) :
    updFirst p f l = updFirst q f l := by
  induction l with
  | nil => rfl
  | cons x xs ih =>
    simp only [updFirst, h x (by simp)]
    cases hq : q x <;>
      simp [hq, ih (fun y hy => h y (by simp [hy]))]

theorem delFirst_eq_filter (p : α → Bool) (l : List α)
    (h : List.Pairwise (fun a b => p a = true → p b = false) l) :
    delFirst p l = l.filter (fun x => !p x) := by
  induction l with
  | nil => rfl
  | cons x xs ih =>
    rcases List.pairwise_cons.mp h with ⟨hx, hxs⟩
    rcases Bool.eq_false_or_eq_true (p x) with hpx | hpx
    · have hall : ∀ y ∈ xs, (!p y) = true := fun y hy => by simp [hx y hy hpx]
      simp [delFirst, List.filter_cons, hpx, List.filter_eq_self.mpr hall]
    · simp [delFirst, List.filter_cons, hpx, ih hxs]

theorem updFirst_eq_map (p : α → Bool) (f : α → α) (l : List α)
    (h : List.Pairwise (fun a b => p a = true → p b = false) l) :
    updFirst p f l = l.map (fun x => if p x then f x else x) := by
  induction l with
  | nil => rfl
  | cons x xs ih =>
    rcases List.pairwise_cons.mp h with ⟨hx, hxs⟩
    rcases Bool.eq_false_or_eq_true (p x) with hpx | hpx
    · have hall : ∀ y ∈ xs, (if p y then f y else y) = y :=
        fun y hy => by simp [hx y hy hpx]
      simp [updFirst, hpx, List.map_congr_left hall]
    · simp [updFirst, hpx, ih hxs]

/-! ## Dispatch facts for the four statements -/

theorem sqlInsert_has_INSERT : strIncludes sqlInsertStr "INSERT" = true := by decide

theorem sqlDelete_not_INSERT : strIncludes sqlDeleteStr "INSERT" = false := by decide

theorem sqlDelete_not_UPDATE : strIncludes sqlDeleteStr "UPDATE" = false := by decide

theorem sqlDelete_has_DELETE : strIncludes sqlDeleteStr "DELETE" = true := by decide

theorem sqlSetStatus_not_INSERT : strIncludes sqlSetStatusStr "INSERT" = false := by decide

theorem sqlSetStatus_has_UPDATE : strIncludes sqlSetStatusStr "UPDATE" = true := by decide

theorem sqlSetStatus_has_SET : strIncludes sqlSetStatusStr "SET status" = true := by decide

theorem sqlSetDeadline_not_INSERT : strIncludes sqlSetDeadlineStr "INSERT" = false := by decide

theorem sqlSetDeadline_has_UPDATE : strIncludes sqlSetDeadlineStr "UPDATE" = true := by decide

theorem sqlSetDeadline_not_SETSTATUS : strIncludes sqlSetDeadlineStr "SET status" = false := by decide

theorem sqlSetDeadline_has_SET : strIncludes sqlSetDeadlineStr "SET deadline" = true := by decide

/-- Equation: the relational engine on the INSERT statement. -/
theorem relMutate_ins (st : RelState) (ps : List Value) :
    relMutate st sqlInsertStr ps =
      { tasks := st.tasks ++
          [{ id := st.nextId
             title := (ps.getD 0 Value.vNull).toStr
             description := (ps.getD 1 Value.vNull).toStr
             status := (ps.getD 2 Value.vNull).toStr
             deadline := (ps.getD 3 Value.vNull).toOptStr }]
        nextId := st.nextId + 1 } := by
  rw [relMutate, if_pos rfl]

/-- Equation: the relational engine on the DELETE statement. -/
theorem relMutate_del (st : RelState) (ps : List Value) :
    relMutate st sqlDeleteStr ps =
      { st with tasks := st.tasks.filter (fun t => !(ps.getD 0 Value.vNull).eqNat t.id) } := by
  rw [relMutate, if_neg (by decide), if_pos rfl]

/-- Equation: the relational engine on the status UPDATE statement. -/
theorem relMutate_setStatus (st : RelState) (ps : List Value) :
    relMutate st sqlSetStatusStr ps =
      { st with tasks := st.tasks.map (fun t =>
          if (ps.getD 1 Value.vNull).eqNat t.id then
            { t with status := (ps.getD 0 Value.vNull).toStr } else t) } := by
  rw [relMutate, if_neg (by decide), if_neg (by decide), if_pos rfl]

/-- Equation: the relational engine on the deadline UPDATE statement. -/
theorem relMutate_setDeadline (st : RelState) (ps : List Value) :
    relMutate st sqlSetDeadlineStr ps =
      { st with tasks := st.tasks.map (fun t =>
          if (ps.getD 1 Value.vNull).eqNat t.id then
            { t with deadline := (ps.getD 0 Value.vNull).toOptStr } else t) } := by
  rw [relMutate, if_neg (by decide), if_neg (by decide), if_neg (by decide), if_pos rfl]

/-- Equation: the key-value backend on the INSERT statement. -/
theorem kvTasks_ins (now : Nat) (tasks : List Task) (ps : List Value) :
    (webDatabase.runAsync now tasks sqlInsertStr ps).tasks =
      tasks ++
        [{ id := now
           title := (ps.getD 0 Value.vNull).toStr
           description := (ps.getD 1 Value.vNull).toStr
           status := (if (ps.getD 2 Value.vNull).isFalsy then Value.vStr "En cours"
                      else ps.getD 2 Value.vNull).toStr
           deadline := some ((if (ps.getD 3 Value.vNull).isFalsy then Value.vStr ""
                              else ps.getD 3 Value.vNull).toStr) }] := by
  simp [webDatabase.runAsync, sqlInsert_has_INSERT]

/-- Equation: the key-value backend on the DELETE statement. -/
theorem kvTasks_del (now : Nat) (tasks : List Task) (ps : List Value) :
    (webDatabase.runAsync now tasks sqlDeleteStr ps).tasks =
      delFirst (fun t => (ps.getD 0 Value.vNull).eqNat t.id) tasks := by
  simp [webDatabase.runAsync, sqlDelete_not_INSERT, sqlDelete_not_UPDATE,
    sqlDelete_has_DELETE]

/-- Equation: the key-value backend on the status UPDATE statement. -/
theorem kvTasks_setStatus (now : Nat) (tasks : List Task) (ps : List Value) :
    (webDatabase.runAsync now tasks sqlSetStatusStr ps).tasks =
      updFirst (fun t => (ps.getD 1 Value.vNull).eqNat t.id)
        (fun t => { t with status := (ps.getD 0 Value.vNull).toStr }) tasks := by
  simp [webDatabase.runAsync, sqlSetStatus_not_INSERT, sqlSetStatus_has_UPDATE,
    sqlSetStatus_has_SET]

/-- Equation: the key-value backend on the deadline UPDATE statement. -/
theorem kvTasks_setDeadline (now : Nat) (tasks : List Task) (ps : List Value) :
    (webDatabase.runAsync now tasks sqlSetDeadlineStr ps).tasks =
      updFirst (fun t => (ps.getD 1 Value.vNull).eqNat t.id)
        (fun t => { t with deadline := some (ps.getD 0 Value.vNull).toStr }) tasks := by
  simp [webDatabase.runAsync, sqlSetDeadline_not_INSERT, sqlSetDeadline_has_UPDATE,
    sqlSetDeadline_not_SETSTATUS, sqlSetDeadline_has_SET]

/-! ## Preservation of the coupling invariant -/

theorem relKvInv_add (clock : Nat → Nat) (a : Nat) (R : RelState) (K : List Task)
    (h : RelKvInv clock a R K) (t d s : String) (dl : Option String) :
    RelKvInv clock (a + 1) (relStep R (Op.add t d s dl))
      ((kvStep clock (K, a) (Op.add t d s dl)).1) := by
  obtain ⟨hnext, hbounds, hpair, hK⟩ := h
  refine ⟨?_, ?_, ?_, ?_⟩
  · simp [relStep, relMutate_ins, hnext]
  · intro x hx
    simp only [relStep, relMutate_ins] at hx
    rcases List.mem_append.mp hx with hx' | hx'
    · have := hbounds x hx'
      omega
    · have hxe := List.mem_singleton.mp hx'
      subst hxe
      simp [hnext]
  · simp only [relStep, relMutate_ins]
    apply List.pairwise_append.mpr
    refine ⟨hpair, by simp, ?_⟩
    intro x hx y hy
    have hxa := (hbounds x hx).2
    have hye := List.mem_singleton.mp hy
    subst hye
    simp [hnext]
    omega
  · simp only [kvStep, relStep]
    rw [kvTasks_ins, hK, relMutate_ins]
    simp only [List.map_append, List.map_cons, List.map_nil]
    congr 1
    congr 1
    simp only [taskNorm, hnext, Nat.add_sub_cancel, addParams,
      List.getD_cons_zero, List.getD_cons_succ]
    rcases dl with _ | x
    · by_cases hs : s = "" <;>
        simp [Value.isFalsy, Value.toStr, Value.toOptStr, hs]
    · by_cases hs : s = "" <;> by_cases hx : x = "" <;>
        simp [Value.isFalsy, Value.toStr, Value.toOptStr, hs, hx]

theorem relKvInv_del (clock : Nat → Nat) (hinj : Function.Injective clock)
    (a : Nat) (R : RelState) (K : List Task)
    (h : RelKvInv clock a R K) (hh : Nat) :
    RelKvInv clock a (relStep R (Op.del hh))
      ((kvStep clock (K, a) (Op.del hh)).1) := by
  obtain ⟨hnext, hbounds, hpair, hK⟩ := h
  have hpred : ∀ x ∈ R.tasks,
      ((Value.vNat (clock hh)).eqNat (taskNorm clock x).id) =
        ((Value.vNat (hh + 1)).eqNat x.id) := by
    intro x hx
    have hx1 := (hbounds x hx).1
    simp only [Value.eqNat, taskNorm]
    by_cases hcase : hh + 1 = x.id
    · have h1 : clock hh = clock (x.id - 1) := congrArg clock (by omega)
      simp [h1, hcase]
    · have h2 : clock hh ≠ clock (x.id - 1) :=
        fun he => hcase (by have := hinj he; omega)
      rw [beq_eq_false_iff_ne.mpr h2, beq_eq_false_iff_ne.mpr hcase]
  have huniq : List.Pairwise
      (fun x y => ((Value.vNat (hh + 1)).eqNat x.id) = true →
        ((Value.vNat (hh + 1)).eqNat y.id) = false) R.tasks := by
    refine hpair.imp ?_
    intro x y hxy hpx
    simp only [Value.eqNat, beq_iff_eq] at hpx
    simp only [Value.eqNat, beq_eq_false_iff_ne, ne_eq]
    omega
  refine ⟨hnext, ?_, ?_, ?_⟩
  · intro x hx
    simp only [relStep, relMutate_del] at hx
    exact hbounds x (List.mem_filter.mp hx).1
  · simp only [relStep, relMutate_del]
    exact hpair.sublist (List.filter_sublist _)
  · simp only [kvStep, relStep]
    rw [kvTasks_del, hK, relMutate_del]
    simp only [List.getD_cons_zero]
    rw [delFirst_map, delFirst_congr _ _ _ hpred, delFirst_eq_filter _ _ huniq]

theorem relKvInv_setStatus (clock : Nat → Nat) (hinj : Function.Injective clock)
    (a : Nat) (R : RelState) (K : List Task)
    (h : RelKvInv clock a R K) (hh : Nat) (s : String) :
    RelKvInv clock a (relStep R (Op.setStatus hh s))
      ((kvStep clock (K, a) (Op.setStatus hh s)).1) := by
  obtain ⟨hnext, hbounds, hpair, hK⟩ := h
  have hpred : ∀ x ∈ R.tasks,
      ((Value.vNat (clock hh)).eqNat (taskNorm clock x).id) =
        ((Value.vNat (hh + 1)).eqNat x.id) := by
    intro x hx
    have hx1 := (hbounds x hx).1
    simp only [Value.eqNat, taskNorm]
    by_cases hcase : hh + 1 = x.id
    · have h1 : clock hh = clock (x.id - 1) := congrArg clock (by omega)
      simp [h1, hcase]
    · have h2 : clock hh ≠ clock (x.id - 1) :=
        fun he => hcase (by have := hinj he; omega)
      rw [beq_eq_false_iff_ne.mpr h2, beq_eq_false_iff_ne.mpr hcase]
  have huniq : List.Pairwise
      (fun x y => ((Value.vNat (hh + 1)).eqNat x.id) = true →
        ((Value.vNat (hh + 1)).eqNat y.id) = false) R.tasks := by
    refine hpair.imp ?_
    intro x y hxy hpx
    simp only [Value.eqNat, beq_iff_eq] at hpx
    simp only [Value.eqNat, beq_eq_false_iff_ne, ne_eq]
    omega
  have hid : ∀ x : Task,
      (if (Value.vNat (hh + 1)).eqNat x.id then { x with status := s } else x).id
        = x.id := by
    intro x
    by_cases hp : (Value.vNat (hh + 1)).eqNat x.id <;> simp [hp]
  refine ⟨hnext, ?_, ?_, ?_⟩
  · intro x hx
    simp only [relStep, relMutate_setStatus, List.getD_cons_zero,
      List.getD_cons_succ, Value.toStr] at hx
    rcases List.mem_map.mp hx with ⟨y, hy, hyx⟩
    have := hbounds y hy
    rw [← hyx, hid]
    exact this
  · simp only [relStep, relMutate_setStatus, List.getD_cons_zero,
      List.getD_cons_succ, Value.toStr]
    apply List.pairwise_map.mpr
    refine hpair.imp ?_
    intro x y hxy
    simpa only [hid] using hxy
  · simp only [kvStep, relStep]
    rw [kvTasks_setStatus, hK, relMutate_setStatus]
    simp only [List.getD_cons_zero, List.getD_cons_succ, Value.toStr]
    rw [updFirst_map _ (taskNorm clock) (fun t => { t with status := s })
        (fun x => { x with status := s }) (fun x => rfl) R.tasks,
      updFirst_congr _ _ _ _ hpred, updFirst_eq_map _ _ _ huniq]

theorem relKvInv_setDeadline (clock : Nat → Nat) (hinj : Function.Injective clock)
    (a : Nat) (R : RelState) (K : List Task)
    (h : RelKvInv clock a R K) (hh : Nat) (d : String) :
    RelKvInv clock a (relStep R (Op.setDeadline hh d))
      ((kvStep clock (K, a) (Op.setDeadline hh d)).1) := by
  obtain ⟨hnext, hbounds, hpair, hK⟩ := h
  have hpred : ∀ x ∈ R.tasks,
      ((Value.vNat (clock hh)).eqNat (taskNorm clock x).id) =
        ((Value.vNat (hh + 1)).eqNat x.id) := by
    intro x hx
    have hx1 := (hbounds x hx).1
    simp only [Value.eqNat, taskNorm]
    by_cases hcase : hh + 1 = x.id
    · have h1 : clock hh = clock (x.id - 1) := congrArg clock (by omega)
      simp [h1, hcase]
    · have h2 : clock hh ≠ clock (x.id - 1) :=
        fun he => hcase (by have := hinj he; omega)
      rw [beq_eq_false_iff_ne.mpr h2, beq_eq_false_iff_ne.mpr hcase]
  have huniq : List.Pairwise
      (fun x y => ((Value.vNat (hh + 1)).eqNat x.id) = true →
        ((Value.vNat (hh + 1)).eqNat y.id) = false) R.tasks := by
    refine hpair.imp ?_
    intro x y hxy hpx
    simp only [Value.eqNat, beq_iff_eq] at hpx
    simp only [Value.eqNat, beq_eq_false_iff_ne, ne_eq]
    omega
  have hid : ∀ x : Task,
      (if (Value.vNat (hh + 1)).eqNat x.id then { x with deadline := some d } else x).id
        = x.id := by
    intro x
    by_cases hp : (Value.vNat (hh + 1)).eqNat x.id <;> simp [hp]
  refine ⟨hnext, ?_, ?_, ?_⟩
  · intro x hx
    simp only [relStep, relMutate_setDeadline, List.getD_cons_zero,
      List.getD_cons_succ, Value.toOptStr] at hx
    rcases List.mem_map.mp hx with ⟨y, hy, hyx⟩
    have := hbounds y hy
    rw [← hyx, hid]
    exact this
  · simp only [relStep, relMutate_setDeadline, List.getD_cons_zero,
      List.getD_cons_succ, Value.toOptStr]
    apply List.pairwise_map.mpr
    refine hpair.imp ?_
    intro x y hxy
    simpa only [hid] using hxy
  · simp only [kvStep, relStep]
    rw [kvTasks_setDeadline, hK, relMutate_setDeadline]
    simp only [List.getD_cons_zero, List.getD_cons_succ, Value.toStr, Value.toOptStr]
    rw [updFirst_map _ (taskNorm clock) (fun t => { t with deadline := some d })
        (fun x => { x with deadline := some d }) (fun x => rfl) R.tasks,
      updFirst_congr _ _ _ _ hpred, updFirst_eq_map _ _ _ huniq]

theorem relKvInv_run (clock : Nat → Nat) (hinj : Function.Injective clock) :
    ∀ (ops : List Op) (a : Nat) (R : RelState) (K : List Task),
      RelKvInv clock a R K →
      RelKvInv clock (ops.foldl addCount a) (ops.foldl relStep R)
        ((ops.foldl (kvStep clock) (K, a)).1)
  | [], _, _, _, h => h
  | op :: ops, a, R, K, h => by
      have hstep : RelKvInv clock (addCount a op) (relStep R op)
          ((kvStep clock (K, a) op).1) := by
        cases op with
        | add t d s dl => exact relKvInv_add clock a R K h t d s dl
        | del hh => exact relKvInv_del clock hinj a R K h hh
        | setStatus hh s2 => exact relKvInv_setStatus clock hinj a R K h hh s2
        | setDeadline hh d2 => exact relKvInv_setDeadline clock hinj a R K h hh d2
      have hpair_eq : kvStep clock (K, a) op =
          ((kvStep clock (K, a) op).1, addCount a op) := by
        cases op <;> rfl
      simp only [List.foldl_cons]
      rw [hpair_eq]
      exact relKvInv_run clock hinj ops (addCount a op) (relStep R op)
        ((kvStep clock (K, a) op).1) hstep

/-- C1 (counterexample): after a single add carrying no deadline, the two
backends do not hold the same set of tasks even with ids erased: the
relational row has no deadline (NULL) while the key-value record has the
empty-string deadline. -/
theorem C1_counterexample :
    ¬ List.Perm (((relRun opsNoDeadline).tasks).map eraseTaskId)
        (((kvRun (fun n => n + 1) opsNoDeadline).1).map eraseTaskId) ∧
    Function.Injective (fun n : Nat => n + 1) :=
  ⟨by decide, fun _ _ h2 => Nat.succ.inj h2⟩

/-- C1 (amended): for every sequence of the four mutation operations issued
through the uniform interface and every injective fresh-id supply for the
key-value backend, the two backends end in the same sequence of tasks up to
the backend-specific ids and up to the key-value backend representing an
absent deadline by the empty string. -/
theorem C1_backend_equivalence (ops : List Op) (clock : Nat → Nat)
    (hinj : Function.Injective clock) :
    ((relRun ops).tasks).map taskKey = ((kvRun clock ops).1).map taskKey := by
  have h0 : RelKvInv clock 0 { tasks := [], nextId := 1 } [] :=
    ⟨rfl, by simp, by simp, by simp⟩
  obtain ⟨-, -, -, hK⟩ := relKvInv_run clock hinj ops 0 _ _ h0
  show ((ops.foldl relStep { tasks := [], nextId := 1 }).tasks).map taskKey =
    ((ops.foldl (kvStep clock) ([], 0)).1).map taskKey
  rw [hK, List.map_map]
  exact List.map_congr_left (fun x _ => rfl)

/-- Witness for C1 (amended) on an add followed by a status update, with the
identity clock. -/
theorem C1_backend_equivalence_witness :
    Function.Injective (fun n : Nat => n) ∧
    ((relRun [Op.add "a" "b" "En cours" (some "2024-01-05"),
        Op.setStatus 0 "Terminé"]).tasks).map taskKey =
      ((kvRun (fun n => n) [Op.add "a" "b" "En cours" (some "2024-01-05"),
        Op.setStatus 0 "Terminé"]).1).map taskKey :=
  ⟨fun _ _ hab => hab,
   C1_backend_equivalence
     [Op.add "a" "b" "En cours" (some "2024-01-05"), Op.setStatus 0 "Terminé"]
     (fun n => n) (fun _ _ hab => hab)⟩

end TodoSqlite
